import Mathlib

/-!
Verification of the `unfold` symlink-unfolding tool.

The filesystem is modelled as a finite association list from absolute
paths (lists of components) to nodes (symlink / regular file / directory).
Every function of `src/main.rs` is translated into an explicit
state-passing function `Fs → Except Err α × Fs`: on an error the mutated
state so far is kept, matching how `?`-propagation leaves the real
filesystem behind.  The low-level primitives (the `symlink` crate and
`std::fs`) are out-of-scope collaborators per the spec and are modelled
as the atomic operations the spec lists (`create_symlink`,
`remove_symlink`, `copy_file`, `create_dir`, `list_dir_entries`).
-/

namespace Unfold

/-- An absolute path, as its list of components from the root. -/
abbrev Path := List String

/-- A raw path as stored in a symlink's value: either absolute or relative
(Rust `PathBuf` can be either; `read_link` returns whatever was stored). -/
structure RPath where
  isAbs : Bool
  comps : List String
deriving DecidableEq, Repr

/-- View an absolute path as a raw path (what `symlink_auto` stores when
handed an absolute `PathBuf`). -/
def Path.abs (p : Path) : RPath := ⟨true, p⟩

/-- `PathBuf::join`: an absolute right operand replaces the base. -/
def Path.join (base : Path) (v : RPath) : Path :=
  if v.isAbs then v.comps else base ++ v.comps

/-- A filesystem node: a symbolic link with a stored value, a regular file
with its byte content, or a directory. -/
inductive Node where
  | symlink (v : RPath)
  | file (content : List Nat)
  | dir
deriving DecidableEq, Repr

/-- The filesystem: a finite association list from absolute paths to nodes. -/
abbrev Fs := List (Path × Node)

def lookupFs : Fs → Path → Option Node
  | [], _ => none
  | e :: rest, p => if e.1 = p then some e.2 else lookupFs rest p

/-- Remove every binding of key `p`. -/
def eraseKey : Fs → Path → Fs
  | [], _ => []
  | e :: rest, p => if e.1 = p then eraseKey rest p else e :: eraseKey rest p

/-- Bind key `p` to `n` (replacing any previous binding). -/
def insertFs (fs : Fs) (p : Path) (n : Node) : Fs :=
  (p, n) :: eraseKey fs p

/-- Names of the direct entries of the directory at `p`
(`list_dir_entries` / `read_dir` snapshot). -/
def childNames (fs : Fs) (p : Path) : List String :=
  ((fs.map Prod.fst).filterMap
    (fun q => if q.dropLast = p then q.getLast? else none)).dedup

/-- Whether the node literally at `p` is a symlink
(Rust `Path::is_symlink`, which does not follow links). -/
def isSymlinkAt (fs : Fs) (p : Path) : Bool :=
  match lookupFs fs p with
  | some (.symlink _) => true
  | _ => false

/-- Fuel-bounded full resolution of the link chain starting at `p`.
`none` = resolution error (cycle / ELOOP), `some none` = chain ends at a
missing node, `some (some n)` = chain ends at the non-link node `n`.
A link value is resolved against the link's own parent directory. -/
def resolveStat (fs : Fs) : Nat → Path → Option (Option Node)
  | 0, _ => none
  | fuel + 1, p =>
    match lookupFs fs p with
    | some (.symlink v) => resolveStat fs fuel (Path.join p.dropLast v)
    | some n => some (some n)
    | none => some none

/-- The node `p` refers to after following symlinks (Rust `metadata`,
backing `is_file` / `is_dir`); `none` on broken chains or errors. -/
def statNode (fs : Fs) (p : Path) : Option Node :=
  match resolveStat fs (fs.length + 1) p with
  | some r => r
  | none => none

/-- Rust `Path::try_exists`: follows symlinks; `none` models an OS error
(e.g. ELOOP), `some false` a dangling chain, `some true` an existing node. -/
def tryExistsFn (fs : Fs) (p : Path) : Option Bool :=
  match resolveStat fs (fs.length + 1) p with
  | none => none
  | some none => some false
  | some (some _) => some true

/-- `p` resolves (following links) to a regular file (Rust `Path::is_file`). -/
def isFileStat (fs : Fs) (p : Path) : Bool :=
  match statNode fs p with
  | some (.file _) => true
  | _ => false

/-- `p` resolves (following links) to a directory (Rust `Path::is_dir`). -/
def isDirStat (fs : Fs) (p : Path) : Bool :=
  match statNode fs p with
  | some .dir => true
  | _ => false

/-- Fuel-bounded canonicalization: the final path of the link chain from
`p`, failing if the chain is broken or cyclic (Rust `Path::canonicalize`). -/
def canonicalizeAux (fs : Fs) : Nat → Path → Option Path
  | 0, _ => none
  | fuel + 1, p =>
    match lookupFs fs p with
    | some (.symlink v) => canonicalizeAux fs fuel (Path.join p.dropLast v)
    | some _ => some p
    | none => none

def canonicalizeFn (fs : Fs) (p : Path) : Option Path :=
  canonicalizeAux fs (fs.length + 1) p

/-- Error kinds of the tool (anyhow messages, abstracted). The
`couldNotRevert` form is main's `.context(format!("Could not revert ..."))`
wrapping: it records the revert attempt's own error around the original
triggering error. -/
inductive Err where
  | notASymlink (p : Path)
  | brokenSymlink (p : Path)
  | unreachable (p : Path)
  | fsOpFailed (p : Path)
  | couldNotUnfold (p : Path)
  | couldNotRevert (p : Path) (revert_err : Err) (original : Err)
deriving DecidableEq, Repr

instance decEqExcept {ε α : Type} [DecidableEq ε] [DecidableEq α] :
    DecidableEq (Except ε α) := fun a b =>
  match a, b with
  | .error x, .error y =>
    if h : x = y then .isTrue (congrArg Except.error h)
    else .isFalse (fun hc => h (Except.error.inj hc))
  | .ok x, .ok y =>
    if h : x = y then .isTrue (congrArg Except.ok h)
    else .isFalse (fun hc => h (Except.ok.inj hc))
  | .error _, .ok _ => .isFalse (fun hc => Except.noConfusion hc)
  | .ok _, .error _ => .isFalse (fun hc => Except.noConfusion hc)

/-- A stateful, fallible computation over the filesystem.  The state is
returned in the error case too: a failing Rust `?` leaves the already
performed mutations on disk. -/
abbrev FsM (α : Type) := Fs → Except Err α × Fs

/-! ### Primitive operations (out-of-scope collaborators per the spec) -/

/-- `symlink::remove_symlink_auto`: removes the symlink at `p`; errors if
`p` is not a symlink. -/
def remove_symlink_auto (p : Path) : FsM Unit := fun fs =>
  match lookupFs fs p with
  | some (.symlink _) => (.ok (), eraseKey fs p)
  | _ => (.error (.fsOpFailed p), fs)

/-- `symlink::remove_symlink_file` (`std::fs::remove_file` on Unix):
unlinks a non-directory node. -/
def remove_symlink_file (p : Path) : FsM Unit := fun fs =>
  match lookupFs fs p with
  | some (.symlink _) => (.ok (), eraseKey fs p)
  | some (.file _) => (.ok (), eraseKey fs p)
  | _ => (.error (.fsOpFailed p), fs)

/-- `symlink::remove_symlink_dir` (also `std::fs::remove_file` on Unix). -/
def remove_symlink_dir (p : Path) : FsM Unit := fun fs =>
  match lookupFs fs p with
  | some (.symlink _) => (.ok (), eraseKey fs p)
  | some (.file _) => (.ok (), eraseKey fs p)
  | _ => (.error (.fsOpFailed p), fs)

/-- `std::fs::remove_file` as used by `try_revert`. -/
def remove_file (p : Path) : FsM Unit := fun fs =>
  match lookupFs fs p with
  | some (.symlink _) => (.ok (), eraseKey fs p)
  | some (.file _) => (.ok (), eraseKey fs p)
  | _ => (.error (.fsOpFailed p), fs)

/-- Drop every binding whose key lies at or below `p`. -/
def removeTree : Fs → Path → Fs
  | [], _ => []
  | e :: rest, p =>
    if p.isPrefixOf e.1 then removeTree rest p else e :: removeTree rest p

/-- `std::fs::remove_dir_all`: removes the node at `p` and everything
below it; errors if `p` is missing or a regular file. -/
def remove_dir_all (p : Path) : FsM Unit := fun fs =>
  match lookupFs fs p with
  | some (.file _) => (.error (.fsOpFailed p), fs)
  | some _ => (.ok (), removeTree fs p)
  | none => (.error (.fsOpFailed p), fs)

/-- `symlink::symlink_auto target at_path`: creates a symlink whose stored
value is `target`; errors if something already exists at `at_path`. -/
def symlink_auto (target : RPath) (at_path : Path) : FsM Unit := fun fs =>
  match lookupFs fs at_path with
  | none => (.ok (), insertFs fs at_path (.symlink target))
  | some _ => (.error (.fsOpFailed at_path), fs)

/-- `std::fs::copy src dst`: copies the bytes of the file `src` resolves
to into a file at `dst`; errors if `src` does not resolve to a file. -/
def copy_file (src dst : Path) : FsM Unit := fun fs =>
  match statNode fs src with
  | some (.file content) => (.ok (), insertFs fs dst (.file content))
  | _ => (.error (.fsOpFailed dst), fs)

/-- `std::fs::create_dir`: creates a directory at `p`; errors if occupied. -/
def create_dir (p : Path) : FsM Unit := fun fs =>
  match lookupFs fs p with
  | none => (.ok (), insertFs fs p .dir)
  | some _ => (.error (.fsOpFailed p), fs)

/-- `Path::read_dir`: one snapshot of the direct entry names of the
directory at `p`. -/
def read_dir (p : Path) : FsM (List String) := fun fs =>
  match lookupFs fs p with
  | some .dir => (.ok (childNames fs p), fs)
  | _ => (.error (.fsOpFailed p), fs)

/-! ### The core functions of `src/main.rs` -/

/-- `try_absolute_path`: absolute paths pass through, relative ones are
joined onto the current working directory. -/
def try_absolute_path (cwd : Path) (p : RPath) : Path :=
  if p.isAbs then p.comps else cwd ++ p.comps

/-- `validate_symlink`: the argument must be a symlink and its resolution
chain must reach an existing node. -/
def validate_symlink (p : Path) : FsM Unit := fun fs =>
  if isSymlinkAt fs p = false then (.error (.notASymlink p), fs)
  else
    match tryExistsFn fs p with
    | none => (.error (.unreachable p), fs)
    | some false => (.error (.brokenSymlink p), fs)
    | some true => (.ok (), fs)

/-- The bounded-layers loop of `try_find_target`: for up to `n`
iterations, while the current node is a symlink, replace it with its
link value joined against its own parent directory. -/
def findTargetLoop (fs : Fs) : Nat → Path → Path
  | 0, t => t
  | n + 1, t =>
    match lookupFs fs t with
    | some (.symlink v) => findTargetLoop fs n (Path.join t.dropLast v)
    | _ => t

/-- `try_find_target`: canonicalize in follow-to-source mode, otherwise
run the bounded-layers loop. -/
def try_find_target (p : Path) (num_layers : Nat) (follow_to_source : Bool) :
    FsM Path := fun fs =>
  if follow_to_source then
    match canonicalizeFn fs p with
    | some q => (.ok q, fs)
    | none => (.error (.unreachable p), fs)
  else (.ok (findTargetLoop fs num_layers p), fs)

/-- `try_symlink_unfold`: remove the original link, then create a link at
the same path whose value is the one-layer resolution of `target`. -/
def try_symlink_unfold (p target : Path) : FsM Unit := fun fs =>
  match remove_symlink_auto p fs with
  | (.error e, fs') => (.error e, fs')
  | (.ok _, fs₁) =>
    match try_find_target target 1 false fs₁ with
    | (.error e, fs') => (.error e, fs')
    | (.ok t, fs₂) => symlink_auto (Path.abs t) p fs₂

/-- `try_file_unfold`: remove the original link, then copy the target
file's bytes to the original path. -/
def try_file_unfold (p target : Path) : FsM Unit := fun fs =>
  match remove_symlink_file p fs with
  | (.error e, fs') => (.error e, fs')
  | (.ok _, fs₁) => copy_file target p fs₁

/-- The child loop of `try_dir_unfold`: for each entry name, create a link
at `symlink_dir/name` whose value is the absolute path `target_dir/name`. -/
def symlinkChildren (symlink_dir target_dir : Path) : List String → FsM Unit
  | [] => fun fs => (.ok (), fs)
  | name :: rest => fun fs =>
    match symlink_auto (Path.abs (target_dir ++ [name])) (symlink_dir ++ [name]) fs with
    | (.error e, fs') => (.error e, fs')
    | (.ok _, fs₁) => symlinkChildren symlink_dir target_dir rest fs₁

/-- `try_dir_unfold`: remove the original link, create a real directory at
its path, then link every direct entry of the target directory. -/
def try_dir_unfold (symlink_dir target_dir : Path) : FsM Unit := fun fs =>
  match remove_symlink_dir symlink_dir fs with
  | (.error e, fs') => (.error e, fs')
  | (.ok _, fs₁) =>
    match create_dir symlink_dir fs₁ with
    | (.error e, fs') => (.error e, fs')
    | (.ok _, fs₂) =>
      match read_dir target_dir fs₂ with
      | (.error e, fs') => (.error e, fs')
      | (.ok names, fs₃) => symlinkChildren symlink_dir target_dir names fs₃

/-- `try_unfold`: resolve the target under the requested bound, then
dispatch on its kind (symlink / file / directory / otherwise fail). -/
def try_unfold (p : Path) (num_layers : Nat) (follow_to_source : Bool) :
    FsM Unit := fun fs =>
  match try_find_target p num_layers follow_to_source fs with
  | (.error e, fs') => (.error e, fs')
  | (.ok target, fs₁) =>
    if isSymlinkAt fs₁ target then try_symlink_unfold p target fs₁
    else if isFileStat fs₁ target then try_file_unfold p target fs₁
    else if isDirStat fs₁ target then try_dir_unfold p target fs₁
    else (.error (.couldNotUnfold p), fs₁)

/-- `try_revert`: clean whatever now sits at the link path, then recreate
a symlink pointing at the captured immediate target. -/
def try_revert (p target : Path) : FsM Unit := fun fs =>
  match tryExistsFn fs p with
  | none => (.error (.unreachable p), fs)
  | some ex =>
    match
      (if ex && isFileStat fs p then remove_file p fs
       else if ex && isDirStat fs p then remove_dir_all p fs
       else (.ok (), fs)) with
    | (.error e, fs₁) => (.error e, fs₁)
    | (.ok _, fs₁) => symlink_auto (Path.abs target) p fs₁

/-- The per-argument body of `main`'s loop: validate, capture the
immediate (one-layer) target, unfold, and on failure attempt a revert,
composing the errors as `main` does. -/
def process_symlink (p : Path) (num_layers : Nat) (follow_to_source : Bool) :
    FsM Unit := fun fs =>
  match validate_symlink p fs with
  | (.error e, fs') => (.error e, fs')
  | (.ok _, fs₁) =>
    match try_find_target p 1 false fs₁ with
    | (.error e, fs') => (.error e, fs')
    | (.ok target, fs₂) =>
      match try_unfold p num_layers follow_to_source fs₂ with
      | (.ok _, fs₃) => (.ok (), fs₃)
      | (.error err, fs₃) =>
        match try_revert p target fs₃ with
        | (.ok _, fs₄) => (.error err, fs₄)
        | (.error revert_err, fs₄) =>
          (.error (.couldNotRevert p revert_err err), fs₄)

/-- `main`'s argument loop: strictly in order, stopping at the first
failure. -/
def run_symlinks (cwd : Path) (num_layers : Nat) (follow_to_source : Bool) :
    List RPath → FsM Unit
  | [] => fun fs => (.ok (), fs)
  | a :: rest => fun fs =>
    match process_symlink (try_absolute_path cwd a) num_layers follow_to_source fs with
    | (.error e, fs') => (.error e, fs')
    | (.ok _, fs₁) => run_symlinks cwd num_layers follow_to_source rest fs₁

/-- `main` after argument parsing: `num_layers == 0` short-circuits the
whole invocation with success, otherwise the arguments are processed in
order. -/
def run_main (cwd : Path) (args : List RPath) (num_layers : Nat)
    (follow_to_source : Bool) : FsM Unit := fun fs =>
  if num_layers = 0 then (.ok (), fs)
  else run_symlinks cwd num_layers follow_to_source args fs

/-! ### Link chains -/

/-- One resolution hop: the link value of the node at `p`, resolved
against `p`'s parent directory; `none` when `p` is not a symlink. -/
def chainStep (fs : Fs) (p : Path) : Option Path :=
  match lookupFs fs p with
  | some (.symlink v) => some (Path.join p.dropLast v)
  | _ => none

/-- `ps` lists the consecutive nodes of a link chain: every element but
possibly the last is a symlink stepping to the next element. -/
def IsChain (fs : Fs) : List Path → Bool
  | p :: q :: rest => decide (chainStep fs p = some q) && IsChain fs (q :: rest)
  | _ => true

/-! ### Basic lemmas about the filesystem map -/

theorem lookupFs_eraseKey (fs : Fs) (p q : Path) :
    lookupFs (eraseKey fs p) q = if q = p then none else lookupFs fs q := by
  induction fs with
  | nil => simp [eraseKey, lookupFs]
  | cons e rest ih =>
    by_cases h : e.1 = p
    · by_cases h' : q = p
      · subst h'
        simp only [eraseKey, if_pos h]
        rw [ih]; simp
      · have hpq : p ≠ q := fun hh => h' hh.symm
        simp [eraseKey, h, ih, h', lookupFs, hpq]
    · by_cases h' : e.1 = q
      · have hne' : q ≠ p := fun hqp => h (by rw [h', hqp])
        simp [eraseKey, h, lookupFs, h', hne', ih]
      · simp [eraseKey, h, lookupFs, h', ih]

theorem lookupFs_insertFs (fs : Fs) (p q : Path) (n : Node) :
    lookupFs (insertFs fs p n) q = if q = p then some n else lookupFs fs q := by
  by_cases h : q = p
  · simp [insertFs, lookupFs, h]
  · have hpq : p ≠ q := fun hpq => h hpq.symm
    simp [insertFs, lookupFs, hpq, lookupFs_eraseKey, h]

theorem eraseKey_length_le (fs : Fs) (p : Path) :
    (eraseKey fs p).length ≤ fs.length := by
  induction fs with
  | nil => simp [eraseKey]
  | cons e rest ih =>
    by_cases h : e.1 = p
    · simp only [eraseKey, if_pos h, List.length_cons]
      exact Nat.le_trans ih (Nat.le_succ _)
    · simp only [eraseKey, if_neg h, List.length_cons]
      exact Nat.succ_le_succ ih

/-! ### Lemmas about chain resolution -/

theorem resolveStat_mono (fs : Fs) :
    ∀ (fuel fuel' : Nat) (q : Path) (r : Option Node), fuel ≤ fuel' →
      resolveStat fs fuel q = some r → resolveStat fs fuel' q = some r := by
  intro fuel
  induction fuel with
  | zero => intro fuel' q r _ h; simp [resolveStat] at h
  | succ fuel ih =>
    intro fuel' q r hle h
    match fuel', hle with
    | fuel' + 1, hle =>
      simp only [resolveStat] at h ⊢
      cases hq : lookupFs fs q with
      | none => rw [hq] at h; exact h
      | some node =>
        cases node with
        | symlink v =>
          rw [hq] at h
          exact ih fuel' _ r (Nat.le_of_succ_le_succ hle) h
        | file c => rw [hq] at h; exact h
        | dir => rw [hq] at h; exact h

theorem resolveStat_eraseKey (fs : Fs) (p : Path) :
    ∀ (fuel : Nat) (q : Path) (node : Node),
      resolveStat (eraseKey fs p) fuel q = some (some node) →
      resolveStat fs fuel q = some (some node) := by
  intro fuel
  induction fuel with
  | zero => intro q node h; simp [resolveStat] at h
  | succ fuel ih =>
    intro q node h
    simp only [resolveStat] at h ⊢
    cases hq : lookupFs (eraseKey fs p) q with
    | none => rw [hq] at h; exact absurd h (by simp)
    | some node' =>
      have hqp : ¬(q = p) := by
        intro hqp
        rw [lookupFs_eraseKey, if_pos hqp] at hq
        exact Option.noConfusion hq
      have hl : lookupFs fs q = some node' := by
        rw [lookupFs_eraseKey, if_neg hqp] at hq
        exact hq
      rw [hq] at h
      rw [hl]
      cases node' with
      | symlink v => exact ih _ node h
      | file c => exact h
      | dir => exact h

theorem statNode_eraseKey (fs : Fs) (p q : Path) (node : Node)
    (h : statNode (eraseKey fs p) q = some node) :
    statNode fs q = some node := by
  unfold statNode at h ⊢
  cases hr : resolveStat (eraseKey fs p) ((eraseKey fs p).length + 1) q with
  | none => rw [hr] at h; exact Option.noConfusion h
  | some r =>
    rw [hr] at h
    cases r with
    | none => exact Option.noConfusion h
    | some node' =>
      have hnode : node' = node := Option.some.inj h
      subst hnode
      have h₁ := resolveStat_eraseKey fs p _ q node' hr
      have h₂ := resolveStat_mono fs _ (fs.length + 1) q (some node')
        (Nat.succ_le_succ (eraseKey_length_le fs p)) h₁
      rw [h₂]

theorem canonicalizeAux_not_symlink (fs : Fs) :
    ∀ (fuel : Nat) (p t : Path), canonicalizeAux fs fuel p = some t →
      isSymlinkAt fs t = false := by
  intro fuel
  induction fuel with
  | zero => intro p t h; simp [canonicalizeAux] at h
  | succ fuel ih =>
    intro p t h
    simp only [canonicalizeAux] at h
    cases hp : lookupFs fs p with
    | none => rw [hp] at h; exact Option.noConfusion h
    | some node =>
      rw [hp] at h
      cases node with
      | symlink v => exact ih _ t h
      | file c =>
        have ht : p = t := Option.some.inj h
        subst ht
        simp [isSymlinkAt, hp]
      | dir =>
        have ht : p = t := Option.some.inj h
        subst ht
        simp [isSymlinkAt, hp]

/-! ### Lemmas about link chains -/

theorem IsChain_cons_cons (fs : Fs) (p q : Path) (rest : List Path) :
    IsChain fs (p :: q :: rest) = true ↔
      chainStep fs p = some q ∧ IsChain fs (q :: rest) = true := by
  simp [IsChain]

theorem IsChain_step (fs : Fs) :
    ∀ (ps : List Path) (i : Nat), IsChain fs ps = true → i + 1 < ps.length →
      chainStep fs (ps.getD i []) = some (ps.getD (i + 1) []) := by
  intro ps
  induction ps with
  | nil => intro i _ hlen; simp at hlen
  | cons p rest ih =>
    intro i hchain hlen
    cases rest with
    | nil => simp at hlen
    | cons q rest' =>
      rw [IsChain_cons_cons] at hchain
      cases i with
      | zero => simpa using hchain.1
      | succ i =>
        simp only [List.getD_cons_succ]
        exact ih i hchain.2 (by simpa using Nat.lt_of_succ_lt_succ hlen)

theorem getD_mem : ∀ (l : List Path) (i : Nat), i < l.length → l.getD i [] ∈ l := by
  intro l
  induction l with
  | nil => intro i h; simp at h
  | cons p rest ih =>
    intro i h
    cases i with
    | zero => simp
    | succ i =>
      simp only [List.getD_cons_succ]
      exact List.mem_cons_of_mem _ (ih i (by simpa using Nat.lt_of_succ_lt_succ h))

/-- The bounded resolution loop walks a chain: it ends at the node
`min n (number of hops)` steps from the start. -/
theorem findTargetLoop_chain (fs : Fs) :
    ∀ (k : Nat) (p : Path) (ps : List Path),
      IsChain fs (p :: ps) = true →
      chainStep fs ((p :: ps).getD ps.length []) = none →
      findTargetLoop fs k p = (p :: ps).getD (min k ps.length) [] := by
  intro k
  induction k with
  | zero => intro p ps _ _; simp [findTargetLoop]
  | succ k ih =>
    intro p ps hchain hlast
    cases ps with
    | nil =>
      have hlast' : chainStep fs p = none := by simpa using hlast
      cases hp : lookupFs fs p with
      | none => simp [findTargetLoop, hp]
      | some node =>
        cases node with
        | symlink v => simp [chainStep, hp] at hlast'
        | file c => simp [findTargetLoop, hp]
        | dir => simp [findTargetLoop, hp]
    | cons q rest =>
      rw [IsChain_cons_cons] at hchain
      obtain ⟨hstep, hch'⟩ := hchain
      have hlast' : chainStep fs ((q :: rest).getD rest.length []) = none := by
        simpa using hlast
      cases hp : lookupFs fs p with
      | none => simp [chainStep, hp] at hstep
      | some node =>
        cases node with
        | symlink v =>
          have hjoin : Path.join p.dropLast v = q := by
            simpa [chainStep, hp] using hstep
          simp only [findTargetLoop, hp, hjoin]
          rw [ih q rest hch' hlast']
          have hmin : min (k + 1) (rest.length + 1) = min k rest.length + 1 :=
            Nat.succ_min_succ k rest.length
          simp only [List.length_cons, hmin, List.getD_cons_succ]
        | file c => simp [chainStep, hp] at hstep
        | dir => simp [chainStep, hp] at hstep

/-! ### Inversion lemmas for the primitives -/

theorem remove_symlink_auto_ok (p : Path) (fs fs₁ : Fs) (u : Unit)
    (h : remove_symlink_auto p fs = (.ok u, fs₁)) :
    fs₁ = eraseKey fs p ∧ ∃ v, lookupFs fs p = some (.symlink v) := by
  unfold remove_symlink_auto at h
  cases hl : lookupFs fs p with
  | none => rw [hl] at h; exact absurd h (by simp)
  | some node =>
    rw [hl] at h
    cases node with
    | symlink v => exact ⟨(congrArg Prod.snd h).symm, v, rfl⟩
    | file c => exact absurd h (by simp)
    | dir => exact absurd h (by simp)

theorem remove_symlink_file_ok (p : Path) (fs fs₁ : Fs) (u : Unit)
    (h : remove_symlink_file p fs = (.ok u, fs₁)) :
    fs₁ = eraseKey fs p := by
  unfold remove_symlink_file at h
  cases hl : lookupFs fs p with
  | none => rw [hl] at h; exact absurd h (by simp)
  | some node =>
    rw [hl] at h
    cases node with
    | symlink v => exact (congrArg Prod.snd h).symm
    | file c => exact (congrArg Prod.snd h).symm
    | dir => exact absurd h (by simp)

theorem remove_symlink_dir_ok (p : Path) (fs fs₁ : Fs) (u : Unit)
    (h : remove_symlink_dir p fs = (.ok u, fs₁)) :
    fs₁ = eraseKey fs p := by
  unfold remove_symlink_dir at h
  cases hl : lookupFs fs p with
  | none => rw [hl] at h; exact absurd h (by simp)
  | some node =>
    rw [hl] at h
    cases node with
    | symlink v => exact (congrArg Prod.snd h).symm
    | file c => exact (congrArg Prod.snd h).symm
    | dir => exact absurd h (by simp)

theorem symlink_auto_ok (target : RPath) (at_path : Path) (fs fs₁ : Fs) (u : Unit)
    (h : symlink_auto target at_path fs = (.ok u, fs₁)) :
    lookupFs fs at_path = none ∧
      fs₁ = insertFs fs at_path (.symlink target) := by
  unfold symlink_auto at h
  cases hl : lookupFs fs at_path with
  | none => rw [hl] at h; exact ⟨rfl, (congrArg Prod.snd h).symm⟩
  | some node => rw [hl] at h; exact absurd h (by simp)

theorem create_dir_ok (p : Path) (fs fs₁ : Fs) (u : Unit)
    (h : create_dir p fs = (.ok u, fs₁)) :
    lookupFs fs p = none ∧ fs₁ = insertFs fs p .dir := by
  unfold create_dir at h
  cases hl : lookupFs fs p with
  | none => rw [hl] at h; exact ⟨rfl, (congrArg Prod.snd h).symm⟩
  | some node => rw [hl] at h; exact absurd h (by simp)

theorem copy_file_ok (src dst : Path) (fs fs₁ : Fs) (u : Unit)
    (h : copy_file src dst fs = (.ok u, fs₁)) :
    ∃ c, statNode fs src = some (.file c) ∧
      fs₁ = insertFs fs dst (.file c) := by
  unfold copy_file at h
  cases hl : statNode fs src with
  | none => rw [hl] at h; exact absurd h (by simp)
  | some node =>
    rw [hl] at h
    cases node with
    | symlink v => exact absurd h (by simp)
    | file c => exact ⟨c, rfl, (congrArg Prod.snd h).symm⟩
    | dir => exact absurd h (by simp)

theorem read_dir_ok (p : Path) (fs fs₁ : Fs) (names : List String)
    (h : read_dir p fs = (.ok names, fs₁)) :
    lookupFs fs p = some .dir ∧ names = childNames fs p ∧ fs₁ = fs := by
  unfold read_dir at h
  cases hl : lookupFs fs p with
  | none => rw [hl] at h; exact absurd h (by simp)
  | some node =>
    rw [hl] at h
    cases node with
    | symlink v => exact absurd h (by simp)
    | file c => exact absurd h (by simp)
    | dir =>
      refine ⟨rfl, ?_, (congrArg Prod.snd h).symm⟩
      have := congrArg Prod.fst h
      simp only at this
      exact (Except.ok.inj this).symm

/-! ### The child-linking loop -/

theorem symlinkChildren_ok (p target : Path) :
    ∀ (l : List String) (fs₀ fs' : Fs),
      symlinkChildren p target l fs₀ = (.ok (), fs') →
      (∀ q : Path, (∀ name ∈ l, q ≠ p ++ [name]) →
        lookupFs fs' q = lookupFs fs₀ q) ∧
      (∀ name ∈ l, lookupFs fs' (p ++ [name]) =
        some (.symlink (Path.abs (target ++ [name])))) := by
  intro l
  induction l with
  | nil =>
    intro fs₀ fs' h
    have h' : fs₀ = fs' := congrArg Prod.snd h
    subst h'
    exact ⟨fun q _ => rfl, fun name hname => absurd hname (List.not_mem_nil _)⟩
  | cons name rest ih =>
    intro fs₀ fs' h
    simp only [symlinkChildren, symlink_auto] at h
    cases hl : lookupFs fs₀ (p ++ [name]) with
    | some node => rw [hl] at h; exact absurd h (by simp)
    | none =>
      rw [hl] at h
      obtain ⟨pres, vals⟩ := ih _ fs' h
      constructor
      · intro q hq
        rw [pres q (fun m hm => hq m (List.mem_cons_of_mem _ hm))]
        rw [lookupFs_insertFs]
        rw [if_neg (hq name (List.mem_cons_self _ _))]
      · intro nm hnm
        rcases List.mem_cons.mp hnm with hnm | hnm
        · subst hnm
          by_cases hmem : nm ∈ rest
          · exact vals nm hmem
          · have hq : ∀ m ∈ rest, p ++ [nm] ≠ p ++ [m] := by
              intro m hm hcontra
              have hnmm : nm = m := by simpa using hcontra
              exact hmem (hnmm ▸ hm)
            rw [pres _ hq, lookupFs_insertFs, if_pos rfl]
        · exact vals nm hnm

/-! ### Claim theorems -/

/-- C7: with `Layers(0)` the entire invocation performs no filesystem
mutation on any argument (even invalid ones, since no argument is touched
at all) and reports success. -/
theorem c7_layers_zero_noop (cwd : Path) (args : List RPath) (follow : Bool)
    (fs : Fs) : run_main cwd args 0 follow fs = (.ok (), fs) := by
  simp [run_main]

/-- C10: in follow-to-source mode the resolved target produced by
`try_find_target` is the canonicalized path and is never itself a symlink,
so the link-to-link branch of `try_unfold` is unreachable in that mode. -/
theorem c10_follow_never_symlink (fs fs' : Fs) (p t : Path) (n : Nat)
    (h : try_find_target p n true fs = (.ok t, fs')) :
    fs' = fs ∧ canonicalizeFn fs p = some t ∧ isSymlinkAt fs t = false := by
  unfold try_find_target at h
  simp only [if_true] at h
  cases hc : canonicalizeFn fs p with
  | none => rw [hc] at h; exact absurd h (by simp)
  | some q =>
    rw [hc] at h
    have h1 : q = t := Except.ok.inj (congrArg Prod.fst h)
    have h2 : fs = fs' := congrArg Prod.snd h
    subst h1
    subst h2
    refine ⟨rfl, rfl, ?_⟩
    exact canonicalizeAux_not_symlink fs (fs.length + 1) p q hc

def fsW10 : Fs := [(["l"], .symlink ⟨true, ["f"]⟩), (["f"], .file [7])]

theorem c10_follow_never_symlink_witness :
    try_find_target ["l"] 0 true fsW10 = (.ok ["f"], fsW10) ∧
      isSymlinkAt fsW10 ["f"] = false :=
  ⟨by decide, (c10_follow_never_symlink fsW10 fsW10 ["l"] ["f"] 0 (by decide)).2.2⟩

/-- C9: under `Layers(n)`, resolution starts at the argument path and for
up to `n` iterations replaces the current path with its link value joined
against the current path's parent directory, stopping early (without
error) at the first non-link node; for a chain of links the resolved
target is therefore the node `min n (chain length)` hops from the start. -/
theorem c9_layers_min_hops (fs : Fs) (p : Path) (ps : List Path) (n : Nat)
    (hchain : IsChain fs (p :: ps) = true)
    (hlast : chainStep fs ((p :: ps).getD ps.length []) = none) :
    try_find_target p n false fs =
      (.ok ((p :: ps).getD (min n ps.length) []), fs) := by
  show (Except.ok (findTargetLoop fs n p), fs) = _
  rw [findTargetLoop_chain fs n p ps hchain hlast]

def fsW9 : Fs := [(["a"], .symlink ⟨true, ["b"]⟩),
  (["b"], .symlink ⟨true, ["c"]⟩), (["c"], .file [1])]

theorem c9_layers_min_hops_witness :
    IsChain fsW9 [["a"], ["b"], ["c"]] = true ∧
      chainStep fsW9 ["c"] = none ∧
      try_find_target ["a"] 5 false fsW9 = (.ok ["c"], fsW9) :=
  ⟨by decide, by decide,
    c9_layers_min_hops fsW9 ["a"] [["b"], ["c"]] 5 (by decide) (by decide)⟩

/-- C4: for a validated link whose resolved target is itself a symlink, a
successful unfold removes the original link node and creates a new link at
the same path whose value is the one-layer (immediate) resolution of the
resolved target — a shallow copy of the next link in the chain. -/
theorem c4_symlink_shallow_copy (fs fs' : Fs) (p target : Path) (n : Nat)
    (f : Bool)
    (htgt : try_find_target p n f fs = (.ok target, fs))
    (hsym : isSymlinkAt fs target = true)
    (hne : target ≠ p)
    (hok : try_unfold p n f fs = (.ok (), fs')) :
    lookupFs fs' p =
      some (.symlink (Path.abs (findTargetLoop fs 1 target))) := by
  unfold try_unfold at hok
  rw [htgt] at hok
  simp only [] at hok
  rw [if_pos hsym] at hok
  obtain ⟨w, hw⟩ : ∃ w, lookupFs fs target = some (.symlink w) := by
    unfold isSymlinkAt at hsym
    cases hl : lookupFs fs target with
    | none => rw [hl] at hsym; exact absurd hsym (by simp)
    | some node =>
      cases node with
      | symlink v => exact ⟨v, rfl⟩
      | file c => rw [hl] at hsym; exact absurd hsym (by simp)
      | dir => rw [hl] at hsym; exact absurd hsym (by simp)
  unfold try_symlink_unfold at hok
  cases hrm : remove_symlink_auto p fs with
  | mk r fs₁ =>
    rw [hrm] at hok
    cases r with
    | error e => exact absurd hok (by simp)
    | ok u =>
      obtain ⟨hfs₁, v, hv⟩ := remove_symlink_auto_ok p fs fs₁ u hrm
      subst hfs₁
      obtain ⟨-, hfs'⟩ := symlink_auto_ok
        (Path.abs (findTargetLoop (eraseKey fs p) 1 target)) p
        (eraseKey fs p) fs' () hok
      subst hfs'
      rw [lookupFs_insertFs, if_pos rfl]
      have hloop : findTargetLoop (eraseKey fs p) 1 target =
          findTargetLoop fs 1 target := by
        unfold findTargetLoop
        rw [lookupFs_eraseKey, if_neg hne, hw]
        simp [findTargetLoop]
      rw [hloop]

def fsW4 : Fs := [(["a"], .symlink ⟨true, ["b"]⟩),
  (["b"], .symlink ⟨true, ["c"]⟩), (["c"], .file [1])]

def fsW4' : Fs := [(["a"], .symlink ⟨true, ["c"]⟩),
  (["b"], .symlink ⟨true, ["c"]⟩), (["c"], .file [1])]

theorem c4_symlink_shallow_copy_witness :
    try_find_target ["a"] 1 false fsW4 = (.ok ["b"], fsW4) ∧
      isSymlinkAt fsW4 ["b"] = true ∧
      (["b"] : Path) ≠ ["a"] ∧
      try_unfold ["a"] 1 false fsW4 = (.ok (), fsW4') ∧
      lookupFs fsW4' ["a"] =
        some (.symlink (Path.abs (findTargetLoop fsW4 1 ["b"]))) :=
  ⟨by decide, by decide, by decide, by decide,
    c4_symlink_shallow_copy fsW4 fsW4' ["a"] ["b"] 1 false
      (by decide) (by decide) (by decide) (by decide)⟩

/-- C5: for a link whose resolved target is a regular file, after a
successful unfold the link path holds a regular file (not a link) whose
content is byte-identical to the pre-unfold resolved target file. -/
theorem c5_file_byte_identical (fs fs' : Fs) (p target : Path) (n : Nat)
    (f : Bool) (c : List Nat)
    (htgt : try_find_target p n f fs = (.ok target, fs))
    (hns : isSymlinkAt fs target = false)
    (hf : statNode fs target = some (.file c))
    (hok : try_unfold p n f fs = (.ok (), fs')) :
    lookupFs fs' p = some (.file c) ∧ isSymlinkAt fs' p = false := by
  unfold try_unfold at hok
  rw [htgt] at hok
  simp only [] at hok
  have hisf : isFileStat fs target = true := by
    unfold isFileStat
    rw [hf]
  have hns' : ¬(isSymlinkAt fs target = true) := by simp [hns]
  rw [if_neg hns', if_pos hisf] at hok
  unfold try_file_unfold at hok
  cases hrm : remove_symlink_file p fs with
  | mk r fs₁ =>
    rw [hrm] at hok
    cases r with
    | error e => exact absurd hok (by simp)
    | ok u =>
      have hfs₁ : fs₁ = eraseKey fs p := remove_symlink_file_ok p fs fs₁ u hrm
      subst hfs₁
      obtain ⟨c', hc', hfs'⟩ :=
        copy_file_ok target p (eraseKey fs p) fs' () hok
      have hcc : c' = c := by
        have := statNode_eraseKey fs p target (.file c') hc'
        rw [hf] at this
        exact (Node.file.inj (Option.some.inj this)).symm
      subst hcc
      subst hfs'
      constructor
      · rw [lookupFs_insertFs, if_pos rfl]
      · unfold isSymlinkAt
        rw [lookupFs_insertFs, if_pos rfl]

def fsW5 : Fs := [(["l"], .symlink ⟨true, ["f"]⟩), (["f"], .file [7])]

def fsW5' : Fs := [(["l"], .file [7]), (["f"], .file [7])]

theorem c5_file_byte_identical_witness :
    try_find_target ["l"] 1 false fsW5 = (.ok ["f"], fsW5) ∧
      isSymlinkAt fsW5 ["f"] = false ∧
      statNode fsW5 ["f"] = some (.file [7]) ∧
      try_unfold ["l"] 1 false fsW5 = (.ok (), fsW5') ∧
      (lookupFs fsW5' ["l"] = some (.file [7]) ∧
        isSymlinkAt fsW5' ["l"] = false) :=
  ⟨by decide, by decide, by decide, by decide,
    c5_file_byte_identical fsW5 fsW5' ["l"] ["f"] 1 false [7]
      (by decide) (by decide) (by decide) (by decide)⟩

/-- C6: for a link whose resolved target is a directory, after a
successful unfold the link path holds a real directory (not a link), and
every entry name of the one `read_dir` snapshot of the target directory
has a symlink at `original_path/entry_name` whose value is the absolute
path `target_directory/entry_name`; the snapshot is covered exhaustively. -/
theorem c6_dir_entries_linked (fs fs' : Fs) (p target : Path)
    (hok : try_dir_unfold p target fs = (.ok (), fs')) :
    lookupFs fs' p = some .dir ∧ isSymlinkAt fs' p = false ∧
      ∀ name ∈ childNames (insertFs (eraseKey fs p) p .dir) target,
        lookupFs fs' (p ++ [name]) =
          some (.symlink (Path.abs (target ++ [name]))) := by
  unfold try_dir_unfold at hok
  cases hrm : remove_symlink_dir p fs with
  | mk r fs₁ =>
    rw [hrm] at hok
    cases r with
    | error e => exact absurd hok (by simp)
    | ok u =>
      have hfs₁ : fs₁ = eraseKey fs p := remove_symlink_dir_ok p fs fs₁ u hrm
      subst hfs₁
      simp only [] at hok
      cases hcd : create_dir p (eraseKey fs p) with
      | mk r₂ fs₂ =>
        rw [hcd] at hok
        cases r₂ with
        | error e => exact absurd hok (by simp)
        | ok u₂ =>
          obtain ⟨-, hfs₂⟩ := create_dir_ok p (eraseKey fs p) fs₂ u₂ hcd
          subst hfs₂
          simp only [] at hok
          cases hrd : read_dir target (insertFs (eraseKey fs p) p .dir) with
          | mk r₃ fs₃ =>
            rw [hrd] at hok
            cases r₃ with
            | error e => exact absurd hok (by simp)
            | ok names =>
              obtain ⟨hdir, hnames, hfs₃⟩ := read_dir_ok target _ fs₃ names hrd
              subst hfs₃
              subst hnames
              simp only [] at hok
              obtain ⟨pres, vals⟩ := symlinkChildren_ok p target _ _ fs' hok
              have hpne : ∀ name ∈
                  childNames (insertFs (eraseKey fs p) p .dir) target,
                  p ≠ p ++ [name] := by
                intro name _ hcontra
                have hlen := congrArg List.length hcontra
                simp at hlen
              have hlp : lookupFs fs' p = some .dir := by
                rw [pres p hpne, lookupFs_insertFs, if_pos rfl]
              refine ⟨hlp, ?_, vals⟩
              unfold isSymlinkAt
              rw [hlp]

def fsW6 : Fs := [(["l"], .symlink ⟨true, ["d"]⟩), (["d"], .dir),
  (["d", "x"], .file [1])]

def fsW6' : Fs := [(["l", "x"], .symlink ⟨true, ["d", "x"]⟩),
  (["l"], .dir), (["d"], .dir), (["d", "x"], .file [1])]

theorem c6_dir_entries_linked_witness :
    try_dir_unfold ["l"] ["d"] fsW6 = (.ok (), fsW6') ∧
      lookupFs fsW6' ["l"] = some .dir ∧
      isSymlinkAt fsW6' ["l"] = false ∧
      lookupFs fsW6' (["l"] ++ ["x"]) =
        some (.symlink (Path.abs (["d"] ++ ["x"]))) :=
  ⟨by decide,
    (c6_dir_entries_linked fsW6 fsW6' ["l"] ["d"] (by decide)).1,
    (c6_dir_entries_linked fsW6 fsW6' ["l"] ["d"] (by decide)).2.1,
    (c6_dir_entries_linked fsW6 fsW6' ["l"] ["d"] (by decide)).2.2 "x" (by decide)⟩

theorem run_symlinks_append_error (cwd : Path) (n : Nat) (f : Bool)
    (x : RPath) (post : List RPath) (e : Err) :
    ∀ (pre : List RPath) (fs fs₁ fs₂ : Fs),
      run_symlinks cwd n f pre fs = (.ok (), fs₁) →
      process_symlink (try_absolute_path cwd x) n f fs₁ = (.error e, fs₂) →
      run_symlinks cwd n f (pre ++ x :: post) fs = (.error e, fs₂) := by
  intro pre
  induction pre with
  | nil =>
    intro fs fs₁ fs₂ hpre hx
    have hfs : fs = fs₁ := congrArg Prod.snd hpre
    subst hfs
    simp only [List.nil_append]
    unfold run_symlinks
    rw [hx]
  | cons a pre' ih =>
    intro fs fs₁ fs₂ hpre hx
    simp only [List.cons_append]
    unfold run_symlinks at hpre ⊢
    cases hpa : process_symlink (try_absolute_path cwd a) n f fs with
    | mk r fsa =>
      rw [hpa] at hpre
      cases r with
      | error e' => exact absurd hpre (by simp)
      | ok u =>
        simp only [] at hpre ⊢
        exact ih fsa fs₁ fs₂ hpre hx

/-- C8: arguments are processed strictly in the order given; the first
argument that fails halts all remaining processing — earlier arguments
keep their successfully-unfolded state, and everything after the failing
argument is left untouched (the run ends in the failing argument's final
state, and no later argument is ever processed). -/
theorem c8_first_failure_halts (cwd : Path) (n : Nat) (f : Bool)
    (pre : List RPath) (x : RPath) (post : List RPath)
    (fs fs₁ fs₂ : Fs) (e : Err)
    (hn : n ≠ 0)
    (hpre : run_symlinks cwd n f pre fs = (.ok (), fs₁))
    (hx : process_symlink (try_absolute_path cwd x) n f fs₁ = (.error e, fs₂)) :
    run_main cwd (pre ++ x :: post) n f fs = (.error e, fs₂) := by
  unfold run_main
  rw [if_neg hn]
  exact run_symlinks_append_error cwd n f x post e pre fs fs₁ fs₂ hpre hx

def fsW8 : Fs := [(["l1"], .symlink ⟨true, ["f"]⟩), (["f"], .file [9]),
  (["l3"], .symlink ⟨true, ["f"]⟩)]

def fsW8' : Fs := [(["l1"], .file [9]), (["f"], .file [9]),
  (["l3"], .symlink ⟨true, ["f"]⟩)]

theorem c8_first_failure_halts_witness :
    run_symlinks [] 1 false [⟨true, ["l1"]⟩] fsW8 = (.ok (), fsW8') ∧
      process_symlink (try_absolute_path [] ⟨true, ["nope"]⟩) 1 false fsW8' =
        (.error (.notASymlink ["nope"]), fsW8') ∧
      run_main [] [⟨true, ["l1"]⟩, ⟨true, ["nope"]⟩, ⟨true, ["l3"]⟩] 1 false fsW8 =
        (.error (.notASymlink ["nope"]), fsW8') :=
  ⟨by decide, by decide,
    c8_first_failure_halts [] 1 false [⟨true, ["l1"]⟩] ⟨true, ["nope"]⟩
      [⟨true, ["l3"]⟩] fsW8 fsW8' fsW8' (.notASymlink ["nope"])
      (by decide) (by decide) (by decide)⟩

def fsX1 : Fs := [(["a"], .symlink ⟨true, ["b"]⟩),
  (["b"], .symlink ⟨true, ["c"]⟩), (["c"], .file [1])]

def fsX1' : Fs := [(["a"], .symlink ⟨true, ["c"]⟩),
  (["b"], .symlink ⟨true, ["c"]⟩), (["c"], .file [1])]

/-- C1 counterexample: for the chain a → b → c(file), i.e. `N = 2` links,
unfolding the head with `Layers(1)` (`k = 1`) succeeds and leaves the head
a symlink, but its value is the absolute path of c — the node `k + 1 = 2`
steps from the start of the chain — and not b, the node exactly `k = 1`
steps from the start, as the claim states. -/
theorem c1_counterexample :
    try_unfold ["a"] 1 false fsX1 = (.ok (), fsX1') ∧
      lookupFs fsX1' ["a"] = some (.symlink (Path.abs ["c"])) ∧
      lookupFs fsX1' ["a"] ≠ some (.symlink (Path.abs ["b"])) :=
  ⟨by decide, by decide, by decide⟩

/-- C1 (amended): for a chain of `N ≥ 2` distinct links ending at a
regular file, unfolding the head with `Layers(k)` for `0 < k < N` leaves
the head path still a symbolic link, and the resulting link's value is the
node of the chain exactly `k + 1` steps from the start (the immediate
target of the resolved node), not `k` steps. -/
theorem c1_still_link_value_succ (fs : Fs) (p0 : Path) (ps : List Path)
    (k : Nat) (c : List Nat)
    (hchain : IsChain fs (p0 :: ps) = true)
    (hfile : lookupFs fs ((p0 :: ps).getD ps.length []) = some (.file c))
    (hk : 0 < k) (hkN : k < ps.length)
    (hnodup : (p0 :: ps).Nodup) :
    (try_unfold p0 k false fs).1 = .ok () ∧
      isSymlinkAt (try_unfold p0 k false fs).2 p0 = true ∧
      lookupFs (try_unfold p0 k false fs).2 p0 =
        some (.symlink (Path.abs ((p0 :: ps).getD (k + 1) []))) := by
  have hlast : chainStep fs ((p0 :: ps).getD ps.length []) = none := by
    unfold chainStep
    rw [hfile]
  have hloop : findTargetLoop fs k p0 = (p0 :: ps).getD k [] := by
    have h := findTargetLoop_chain fs k p0 ps hchain hlast
    rwa [Nat.min_eq_left (Nat.le_of_lt hkN)] at h
  have hstep : chainStep fs ((p0 :: ps).getD k []) =
      some ((p0 :: ps).getD (k + 1) []) :=
    IsChain_step fs (p0 :: ps) k hchain (by simp only [List.length_cons]; omega)
  have hstep0 : chainStep fs ((p0 :: ps).getD 0 []) =
      some ((p0 :: ps).getD 1 []) :=
    IsChain_step fs (p0 :: ps) 0 hchain (by simp only [List.length_cons]; omega)
  obtain ⟨v0, hv0⟩ : ∃ v0, lookupFs fs p0 = some (.symlink v0) := by
    unfold chainStep at hstep0
    simp only [List.getD_cons_zero] at hstep0
    cases hl0 : lookupFs fs p0 with
    | none => rw [hl0] at hstep0; exact absurd hstep0 (by simp)
    | some node =>
      cases node with
      | symlink v => exact ⟨v, rfl⟩
      | file cc => rw [hl0] at hstep0; exact absurd hstep0 (by simp)
      | dir => rw [hl0] at hstep0; exact absurd hstep0 (by simp)
  obtain ⟨v, hv, hjoin⟩ : ∃ v,
      lookupFs fs ((p0 :: ps).getD k []) = some (.symlink v) ∧
        Path.join ((p0 :: ps).getD k []).dropLast v =
          (p0 :: ps).getD (k + 1) [] := by
    unfold chainStep at hstep
    cases hl : lookupFs fs ((p0 :: ps).getD k []) with
    | none => rw [hl] at hstep; exact absurd hstep (by simp)
    | some node =>
      cases node with
      | symlink w =>
        rw [hl] at hstep
        exact ⟨w, rfl, Option.some.inj hstep⟩
      | file cc => rw [hl] at hstep; exact absurd hstep (by simp)
      | dir => rw [hl] at hstep; exact absurd hstep (by simp)
  have hne : (p0 :: ps).getD k [] ≠ p0 := by
    obtain ⟨j, hj⟩ : ∃ j, k = j + 1 := ⟨k - 1, by omega⟩
    subst hj
    simp only [List.getD_cons_succ]
    have hmem : ps.getD j [] ∈ ps := getD_mem ps j (by omega)
    have hp0 : p0 ∉ ps := (List.nodup_cons.mp hnodup).1
    intro hcontra
    rw [hcontra] at hmem
    exact hp0 hmem
  have hsymt : isSymlinkAt fs ((p0 :: ps).getD k []) = true := by
    unfold isSymlinkAt
    rw [hv]
  have hft : try_find_target p0 k false fs =
      (.ok ((p0 :: ps).getD k []), fs) := by
    show (Except.ok (findTargetLoop fs k p0), fs) = _
    rw [hloop]
  have hloop1 : findTargetLoop (eraseKey fs p0) 1 ((p0 :: ps).getD k []) =
      (p0 :: ps).getD (k + 1) [] := by
    unfold findTargetLoop
    rw [lookupFs_eraseKey, if_neg hne, hv]
    simp only [findTargetLoop]
    exact hjoin
  have hrm : remove_symlink_auto p0 fs = (.ok (), eraseKey fs p0) := by
    unfold remove_symlink_auto
    rw [hv0]
  have hft1 : try_find_target ((p0 :: ps).getD k []) 1 false (eraseKey fs p0) =
      (.ok ((p0 :: ps).getD (k + 1) []), eraseKey fs p0) := by
    show (Except.ok
      (findTargetLoop (eraseKey fs p0) 1 ((p0 :: ps).getD k [])),
      eraseKey fs p0) = _
    rw [hloop1]
  have hsa : symlink_auto (Path.abs ((p0 :: ps).getD (k + 1) [])) p0
      (eraseKey fs p0) =
      (.ok (), insertFs (eraseKey fs p0) p0
        (.symlink (Path.abs ((p0 :: ps).getD (k + 1) [])))) := by
    unfold symlink_auto
    rw [lookupFs_eraseKey, if_pos rfl]
  have htu : try_unfold p0 k false fs =
      (.ok (), insertFs (eraseKey fs p0) p0
        (.symlink (Path.abs ((p0 :: ps).getD (k + 1) [])))) := by
    unfold try_unfold
    rw [hft]
    simp only []
    rw [if_pos hsymt]
    unfold try_symlink_unfold
    rw [hrm]
    simp only []
    rw [hft1]
    simp only []
    rw [hsa]
  refine ⟨by rw [htu], ?_, ?_⟩
  · simp only [htu]
    unfold isSymlinkAt
    rw [lookupFs_insertFs, if_pos rfl]
  · simp only [htu]
    rw [lookupFs_insertFs, if_pos rfl]

def fsY1 : Fs := [(["a"], .symlink ⟨true, ["b"]⟩),
  (["b"], .symlink ⟨true, ["c"]⟩), (["c"], .symlink ⟨true, ["d"]⟩),
  (["d"], .file [2])]

theorem c1_still_link_value_succ_witness :
    IsChain fsY1 [["a"], ["b"], ["c"], ["d"]] = true ∧
      lookupFs fsY1 ["d"] = some (.file [2]) ∧
      (0 < 1 ∧ 1 < 3) ∧
      ([["a"], ["b"], ["c"], ["d"]] : List Path).Nodup ∧
      ((try_unfold ["a"] 1 false fsY1).1 = .ok () ∧
        isSymlinkAt (try_unfold ["a"] 1 false fsY1).2 ["a"] = true ∧
        lookupFs (try_unfold ["a"] 1 false fsY1).2 ["a"] =
          some (.symlink (Path.abs ["c"]))) :=
  ⟨by decide, by decide, ⟨by decide, by decide⟩, by decide,
    c1_still_link_value_succ fsY1 ["a"] [["b"], ["c"], ["d"]] 1 [2]
      (by decide) (by decide) (by decide) (by decide) (by decide)⟩

theorem revert_tail_ok (p target : Path) (fsx fsr : Fs) (u2 : Unit)
    (h : symlink_auto (Path.abs target) p fsx = (.ok u2, fsr)) :
    lookupFs fsr p = some (.symlink (Path.abs target)) := by
  obtain ⟨-, hfsr⟩ := symlink_auto_ok (Path.abs target) p fsx fsr u2 h
  subst hfsr
  rw [lookupFs_insertFs, if_pos rfl]

theorem try_revert_ok_value (p target : Path) (fsm fsr : Fs)
    (hrev : try_revert p target fsm = (.ok (), fsr)) :
    lookupFs fsr p = some (.symlink (Path.abs target)) := by
  unfold try_revert at hrev
  cases he : tryExistsFn fsm p with
  | none => rw [he] at hrev; exact absurd hrev (by simp)
  | some ex =>
    rw [he] at hrev
    simp only [] at hrev
    by_cases h1 : (ex && isFileStat fsm p) = true
    · rw [if_pos h1] at hrev
      cases hq : remove_file p fsm with
      | mk r2 fsx =>
        rw [hq] at hrev
        cases r2 with
        | error e2 => exact absurd hrev (by simp)
        | ok u2 =>
          simp only [] at hrev
          exact revert_tail_ok p target fsx fsr () hrev
    · rw [if_neg h1] at hrev
      by_cases h2 : (ex && isDirStat fsm p) = true
      · rw [if_pos h2] at hrev
        cases hq : remove_dir_all p fsm with
        | mk r2 fsx =>
          rw [hq] at hrev
          cases r2 with
          | error e2 => exact absurd hrev (by simp)
          | ok u2 =>
            simp only [] at hrev
            exact revert_tail_ok p target fsx fsr () hrev
      · rw [if_neg h2] at hrev
        simp only [] at hrev
        exact revert_tail_ok p target fsm fsr () hrev

def fsZ2 : Fs := [(["u", "l"], .symlink ⟨false, ["d"]⟩), (["u", "d"], .dir),
  (["u", "d", "x"], .file [1]), (["u", "l", "x"], .file [2])]

def fsZ2m : Fs := [(["u", "l"], .dir), (["u", "d"], .dir),
  (["u", "d", "x"], .file [1]), (["u", "l", "x"], .file [2])]

def fsZ2r : Fs := [(["u", "l"], .symlink ⟨true, ["u", "d"]⟩),
  (["u", "d"], .dir), (["u", "d", "x"], .file [1])]

/-- C2 counterexample: the link at u/l originally stores the relative
value "d" (immediate target u/d). Its directory transform fails after
mutation has started (the original link was already replaced by a real
directory), the revert runs and succeeds, but the restored link's value is
the absolutized captured target u/d, which is not the link's original
value "d": the original stored value is not restored exactly. -/
theorem c2_counterexample :
    lookupFs fsZ2 ["u", "l"] = some (.symlink ⟨false, ["d"]⟩) ∧
      try_unfold ["u", "l"] 1 false fsZ2 =
        (.error (.fsOpFailed ["u", "l", "x"]), fsZ2m) ∧
      fsZ2m ≠ fsZ2 ∧
      process_symlink ["u", "l"] 1 false fsZ2 =
        (.error (.fsOpFailed ["u", "l", "x"]), fsZ2r) ∧
      lookupFs fsZ2r ["u", "l"] = some (.symlink ⟨true, ["u", "d"]⟩) ∧
      Node.symlink ⟨true, ["u", "d"]⟩ ≠ Node.symlink ⟨false, ["d"]⟩ :=
  ⟨by decide, by decide, by decide, by decide, by decide, by decide⟩

/-- C2 (amended): for every argument whose transform fails, a successful
revert restores the argument path to a symbolic link whose value is the
absolutized immediate one-layer target captured before processing (the
original link value resolved against the link's parent directory); this
equals the original stored value only when that value was absolute, and
differs textually when the original value was relative. -/
theorem c2_revert_restores_immediate_target (fs fsm fsr : Fs) (p : Path)
    (n : Nat) (f : Bool) (e : Err)
    (hval : validate_symlink p fs = (.ok (), fs))
    (herr : try_unfold p n f fs = (.error e, fsm))
    (hrev : try_revert p (findTargetLoop fs 1 p) fsm = (.ok (), fsr)) :
    process_symlink p n f fs = (.error e, fsr) ∧
      lookupFs fsr p =
        some (.symlink (Path.abs (findTargetLoop fs 1 p))) := by
  constructor
  · unfold process_symlink
    rw [hval]
    simp only []
    rw [show try_find_target p 1 false fs =
      (.ok (findTargetLoop fs 1 p), fs) from rfl]
    simp only []
    rw [herr]
    simp only []
    rw [hrev]
  · exact try_revert_ok_value p (findTargetLoop fs 1 p) fsm fsr hrev

theorem c2_revert_restores_immediate_target_witness :
    validate_symlink ["u", "l"] fsZ2 = (.ok (), fsZ2) ∧
      try_unfold ["u", "l"] 1 false fsZ2 =
        (.error (.fsOpFailed ["u", "l", "x"]), fsZ2m) ∧
      try_revert ["u", "l"] (findTargetLoop fsZ2 1 ["u", "l"]) fsZ2m =
        (.ok (), fsZ2r) ∧
      (process_symlink ["u", "l"] 1 false fsZ2 =
          (.error (.fsOpFailed ["u", "l", "x"]), fsZ2r) ∧
        lookupFs fsZ2r ["u", "l"] =
          some (.symlink (Path.abs (findTargetLoop fsZ2 1 ["u", "l"])))) :=
  ⟨by decide, by decide, by decide,
    c2_revert_restores_immediate_target fsZ2 fsZ2m fsZ2r ["u", "l"] 1 false
      (.fsOpFailed ["u", "l", "x"]) (by decide) (by decide) (by decide)⟩

/-- C3: whenever the transformer fails for a validated argument, a revert
attempt is always made before the error surfaces (the run ends in the
revert attempt's final state); if the revert succeeds the original error
is reported unchanged, and if the revert itself fails its error is
reported wrapped around the original triggering error, never replacing
it. -/
theorem c3_revert_attempt_composes_errors (fs fsm : Fs) (p : Path) (n : Nat)
    (f : Bool) (e : Err)
    (hval : validate_symlink p fs = (.ok (), fs))
    (herr : try_unfold p n f fs = (.error e, fsm)) :
    (process_symlink p n f fs).2 =
        (try_revert p (findTargetLoop fs 1 p) fsm).2 ∧
      ((try_revert p (findTargetLoop fs 1 p) fsm).1 = .ok () →
        (process_symlink p n f fs).1 = .error e) ∧
      (∀ re, (try_revert p (findTargetLoop fs 1 p) fsm).1 = .error re →
        (process_symlink p n f fs).1 =
          .error (.couldNotRevert p re e)) := by
  have hps : process_symlink p n f fs =
      (match try_revert p (findTargetLoop fs 1 p) fsm with
       | (.ok _, fs₄) => (.error e, fs₄)
       | (.error revert_err, fs₄) =>
         (.error (.couldNotRevert p revert_err e), fs₄)) := by
    unfold process_symlink
    rw [hval]
    simp only []
    rw [show try_find_target p 1 false fs =
      (.ok (findTargetLoop fs 1 p), fs) from rfl]
    simp only []
    rw [herr]
  cases hrv : try_revert p (findTargetLoop fs 1 p) fsm with
  | mk r fs₄ =>
    rw [hrv] at hps
    cases r with
    | ok u =>
      cases u
      refine ⟨by rw [hps], fun _ => by rw [hps], fun re hre => ?_⟩
      simp only [] at hre
      exact absurd hre (by simp)
    | error re' =>
      refine ⟨by rw [hps], fun hok => ?_, fun re hre => ?_⟩
      · simp only [] at hok
        exact absurd hok (by simp)
      · simp only [] at hre
        have hre' : re' = re := Except.error.inj hre
        subst hre'
        rw [hps]

def fsW3 : Fs := [(["w", "l"], .symlink ⟨true, ["w", "d"]⟩),
  (["w", "d"], .dir), (["w", "d", "y"], .file [3]),
  (["w", "l", "y"], .file [4])]

def fsW3m : Fs := [(["w", "l"], .dir), (["w", "d"], .dir),
  (["w", "d", "y"], .file [3]), (["w", "l", "y"], .file [4])]

theorem c3_revert_attempt_composes_errors_witness :
    validate_symlink ["w", "l"] fsW3 = (.ok (), fsW3) ∧
      try_unfold ["w", "l"] 1 false fsW3 =
        (.error (.fsOpFailed ["w", "l", "y"]), fsW3m) ∧
      (process_symlink ["w", "l"] 1 false fsW3).2 =
        (try_revert ["w", "l"] (findTargetLoop fsW3 1 ["w", "l"]) fsW3m).2 ∧
      (process_symlink ["w", "l"] 1 false fsW3).1 =
        .error (.fsOpFailed ["w", "l", "y"]) :=
  ⟨by decide, by decide,
    (c3_revert_attempt_composes_errors fsW3 fsW3m ["w", "l"] 1 false
      (.fsOpFailed ["w", "l", "y"]) (by decide) (by decide)).1,
    (c3_revert_attempt_composes_errors fsW3 fsW3m ["w", "l"] 1 false
      (.fsOpFailed ["w", "l", "y"]) (by decide) (by decide)).2.1 (by decide)⟩

end Unfold
